import Mathlib

/-! Verification of the `pyems` calculation library (`pyems/calc.py`).

The four functions of the source file are embedded over the real numbers:

* `wheeler_z0`     — Wheeler's closed-form microstrip impedance formula;
* `wheeler_z0_width` — the iterative inverse solver (bracketing by powers of
  ten followed by secant-style linear interpolation), modelled with an
  explicit fuel parameter for the three unbounded `while` loops;
* `miter`          — the Douville–James miter-length formula together with
  its input validation, modelled in an `Except` monad (the Python code
  raises `ZeroDivisionError` when the substrate height is zero, since the
  division happens before the comparison, and `ValueError` when the ratio is
  below 1/4);
* `coax_core_diameter` — the coaxial core-diameter formula.

Division by zero in the embedding follows Lean's convention `x / 0 = 0`;
every place where the original code actually divides, the development proves
the divisor nonzero before relying on the value, or (for `miter`) makes the
zero-divisor case an explicit error as in Python.
-/

open Real

namespace Pyems

/-- Effective width `weff` computed by `wheeler_z0` (pyems/calc.py lines
20–31): `w + (t*((1 + 1/er)/(2*pi))) * log(4*e / sqrt((t/h)^2 +
((1/pi)*(1/((w/t) + 11/10)))^2))`. -/
noncomputable def wheeler_weff (w t er h : ℝ) : ℝ :=
  w + (t * ((1 + 1 / er) / (2 * π))) *
    Real.log ((4 * Real.exp 1) /
      Real.sqrt ((t / h) ^ 2 + ((1 / π) * (1 / ((w / t) + 11 / 10))) ^ 2))

/-- Intermediate value `tmp1 = 4 * h / weff` (pyems/calc.py line 32). -/
noncomputable def wheeler_tmp1 (w t er h : ℝ) : ℝ :=
  4 * h / wheeler_weff w t er h

/-- Intermediate value `tmp2 = (14 + (8 / er)) / 11` (pyems/calc.py line 33). -/
noncomputable def wheeler_tmp2 (er : ℝ) : ℝ :=
  (14 + 8 / er) / 11

/-- Argument of the outer logarithm of Wheeler's formula
(pyems/calc.py lines 34–50). -/
noncomputable def wheeler_arg (w t er h : ℝ) : ℝ :=
  1 + wheeler_tmp1 w t er h *
    ((wheeler_tmp2 er * wheeler_tmp1 w t er h) +
      Real.sqrt ((wheeler_tmp2 er * wheeler_tmp1 w t er h) ^ 2 +
        π ^ 2 * ((1 + 1 / er) / 2)))

/-- Function `wheeler_z0` (pyems/calc.py lines 4–51): microstrip characteristic
impedance from trace width `w`, trace thickness `t`, substrate relative
permittivity `er` and substrate height `h`. -/
noncomputable def wheeler_z0 (w t er h : ℝ) : ℝ :=
  (376.730313668 / (2 * π * Real.sqrt (2 * (1 + er)))) *
    Real.log (wheeler_arg w t er h)

/-- State of the interpolation loop of `wheeler_z0_width`
(pyems/calc.py lines 91–103): the bracketing widths, their impedances, the
current width estimate and its impedance. -/
structure SolveState where
  wlow : ℝ
  zlow : ℝ
  whigh : ℝ
  zhigh : ℝ
  width : ℝ
  zm : ℝ

/-- The `while zlow < z0: wlow /= 10` loop (pyems/calc.py lines 81–83),
with fuel; `none` models non-termination within the given fuel. -/
noncomputable def bracketLowAux (z0 t er h : ℝ) : ℕ → ℝ → Option ℝ
  | 0, wlow => if wheeler_z0 wlow t er h < z0 then none else some wlow
  | fuel + 1, wlow =>
      if wheeler_z0 wlow t er h < z0 then
        bracketLowAux z0 t er h fuel (wlow / 10)
      else some wlow

/-- The `while zhigh > z0: whigh *= 10` loop (pyems/calc.py lines 87–89),
with fuel. -/
noncomputable def bracketHighAux (z0 t er h : ℝ) : ℕ → ℝ → Option ℝ
  | 0, whigh => if wheeler_z0 whigh t er h > z0 then none else some whigh
  | fuel + 1, whigh =>
      if wheeler_z0 whigh t er h > z0 then
        bracketHighAux z0 t er h fuel (whigh * 10)
      else some whigh

/-- One iteration of the interpolation loop body
(pyems/calc.py lines 92–103). -/
noncomputable def interpStep (z0 t er h : ℝ) (s : SolveState) : SolveState :=
  if s.zm > z0 then
    let m := (s.zhigh - s.zm) / (s.whigh - s.width)
    let width := s.width + ((z0 - s.zm) / m)
    { wlow := s.width, zlow := s.zm, whigh := s.whigh, zhigh := s.zhigh,
      width := width, zm := wheeler_z0 width t er h }
  else
    let m := (s.zm - s.zlow) / (s.width - s.wlow)
    let width := s.width + ((z0 - s.zm) / m)
    { wlow := s.wlow, zlow := s.zlow, whigh := s.width, zhigh := s.zm,
      width := width, zm := wheeler_z0 width t er h }

/-- The `while np.absolute(zm - z0) > tol` loop (pyems/calc.py lines
91–105), with fuel. -/
noncomputable def interpLoop (z0 t er h tol : ℝ) : ℕ → SolveState → Option ℝ
  | 0, s => if |s.zm - z0| > tol then none else some s.width
  | fuel + 1, s =>
      if |s.zm - z0| > tol then
        interpLoop z0 t er h tol fuel (interpStep z0 t er h s)
      else some s.width

/-- Function `wheeler_z0_width` (pyems/calc.py lines 54–105): inverse solver for
Wheeler's formula.  The three `while` loops share a fuel parameter; a
`none` result models non-termination. -/
noncomputable def wheeler_z0_width (z0 t er h tol guess : ℝ) (fuel : ℕ) :
    Option ℝ :=
  match bracketLowAux z0 t er h fuel (guess / 10) with
  | none => none
  | some wlow =>
    match bracketHighAux z0 t er h fuel (guess * 10) with
    | none => none
    | some whigh =>
      interpLoop z0 t er h tol fuel
        { wlow := wlow, zlow := wheeler_z0 wlow t er h,
          whigh := whigh, zhigh := wheeler_z0 whigh t er h,
          width := guess, zm := wheeler_z0 guess t er h }

/-- Loop invariant of the interpolation loop of `wheeler_z0_width`: the
three stored impedances match their stored widths, the stored impedances
bracket the target (`zlow ≥ z0 ≥ zhigh`), and the current width estimate
lies inside the bracket. -/
def SolveInv (z0 t er h : ℝ) (s : SolveState) : Prop :=
  s.zlow = wheeler_z0 s.wlow t er h ∧
  s.zhigh = wheeler_z0 s.whigh t er h ∧
  s.zm = wheeler_z0 s.width t er h ∧
  z0 ≤ s.zlow ∧ s.zhigh ≤ z0 ∧
  s.wlow ≤ s.width ∧ s.width ≤ s.whigh

/-- Errors raised by `miter`: the Python `ZeroDivisionError` from the ratio
computation, and the `ValueError` for a ratio below 1/4. -/
inductive MiterError
  | divByZero
  | ratioTooSmall
  deriving DecidableEq

/-- Function `miter` (pyems/calc.py lines 108–117).  The Python code evaluates
`trace_width / substrate_height` inside the `if` condition, so a zero
substrate height raises `ZeroDivisionError` before the ratio test; a ratio
below `0.25` raises `ValueError`; otherwise `0.52 + 0.65 *
exp(-(27/20) * trace_width / substrate_height)` is returned. -/
noncomputable def miter (trace_width substrate_height : ℝ) :
    Except MiterError ℝ :=
  if substrate_height = 0 then Except.error MiterError.divByZero
  else if trace_width / substrate_height < 0.25 then
    Except.error MiterError.ratioTooSmall
  else
    Except.ok (0.52 + (0.65 * Real.exp (-(27 / 20) * trace_width / substrate_height)))

/-- Function `coax_core_diameter` (pyems/calc.py lines 120–132):
`outer_diameter / 10 ** (impedance * sqrt(permittivity) / 138)`. -/
noncomputable def coax_core_diameter
    (outer_diameter permittivity impedance : ℝ) : ℝ :=
  outer_diameter / (10 : ℝ) ^ (impedance * Real.sqrt permittivity / 138)

/-! Elementary bounds on `exp` and `log` used throughout. -/

/-- Upper bound `exp (-x) ≤ 1 / (1 + x)`, valid whenever `1 + x > 0`. -/
theorem exp_neg_le_one_div (x : ℝ) (hx : 0 < 1 + x) :
    Real.exp (-x) ≤ 1 / (1 + x) := by
  have h1 : 1 + x ≤ Real.exp x := by
    have := Real.add_one_le_exp x
    linarith
  have h2 : 0 < Real.exp x := Real.exp_pos x
  rw [Real.exp_neg]
  rw [inv_eq_one_div]
  exact one_div_le_one_div_of_le hx h1

/-- Lower bound `1 - 1 / x ≤ log x` for positive `x`. -/
theorem one_sub_inv_le_log (x : ℝ) (hx : 0 < x) :
    1 - 1 / x ≤ Real.log x := by
  have h1 : Real.log x⁻¹ ≤ x⁻¹ - 1 :=
    Real.log_le_sub_one_of_pos (inv_pos.mpr hx)
  rw [Real.log_inv] at h1
  rw [one_div]
  linarith

/-! Basic unfolding lemmas for `miter`. -/

/-- If the ratio is at least 1/4, `miter` succeeds with the Douville–James
value, exactly as written in the source. -/
theorem miter_eq_of_ratio (w h : ℝ) (hr : 0.25 ≤ w / h) :
    miter w h =
      Except.ok (0.52 + (0.65 * Real.exp (-(27 / 20) * w / h))) := by
  have hh : h ≠ 0 := by
    rintro rfl
    rw [div_zero] at hr
    norm_num at hr
  unfold miter
  rw [if_neg hh, if_neg (not_lt.mpr hr)]

/-! Claim theorems for `miter` and `coax_core_diameter`. -/

/-- Claim C2: for a nonzero substrate height, `miter` fails with an error
(computing no value) if and only if `trace_width / substrate_height < 0.25`;
for every ratio at least `0.25` it returns a value. -/
theorem C2_miter_error_iff (w h : ℝ) (hh : h ≠ 0) :
    (∃ e, miter w h = Except.error e) ↔ w / h < 0.25 := by
  unfold miter
  rw [if_neg hh]
  by_cases hr : w / h < 0.25
  · simp [hr]
  · simp [hr]

/-- Witness for C2 at `trace_width = 1`, `substrate_height = 1`. -/
theorem C2_miter_error_iff_witness :
    (1 : ℝ) ≠ 0 ∧ ((∃ e, miter 1 1 = Except.error e) ↔ (1 : ℝ) / 1 < 0.25) :=
  ⟨by norm_num, C2_miter_error_iff 1 1 (by norm_num)⟩

/-- Claim C5: whenever `trace_width / substrate_height ≥ 0.25`, `miter`
returns exactly `0.52 + 0.65 * exp (-1.35 * trace_width / substrate_height)`. -/
theorem C5_miter_formula (w h : ℝ) (hr : 0.25 ≤ w / h) :
    miter w h = Except.ok (0.52 + 0.65 * Real.exp (-1.35 * (w / h))) := by
  rw [miter_eq_of_ratio w h hr]
  have : -(27 / 20) * w / h = -1.35 * (w / h) := by ring
  rw [this]

/-- Witness for C5 at `trace_width = 1`, `substrate_height = 2`. -/
theorem C5_miter_formula_witness :
    (0.25 : ℝ) ≤ 1 / 2 ∧
      miter 1 2 = Except.ok (0.52 + 0.65 * Real.exp (-1.35 * ((1 : ℝ) / 2))) :=
  ⟨by norm_num, C5_miter_formula 1 2 (by norm_num)⟩

/-- Claim C10: a zero substrate height makes `miter` fail with the
division-by-zero error raised while computing the ratio, never with the
invalid-ratio validation error, and it returns no value. -/
theorem C10_miter_zero_height (w : ℝ) :
    miter w 0 = Except.error MiterError.divByZero ∧
      miter w 0 ≠ Except.error MiterError.ratioTooSmall ∧
      ∀ v, miter w 0 ≠ Except.ok v := by
  refine ⟨if_pos rfl, ?_, ?_⟩
  · rw [show miter w 0 = Except.error MiterError.divByZero from if_pos rfl]
    simp
  · intro v
    rw [show miter w 0 = Except.error MiterError.divByZero from if_pos rfl]
    simp

/-- Claim C7: `coax_core_diameter` returns exactly
`outer_diameter / 10 ^ (impedance * sqrt permittivity / 138)`, with no input
validation: it is total on all real inputs. -/
theorem C7_coax_formula (od p i : ℝ) :
    coax_core_diameter od p i = od / (10 : ℝ) ^ (i * Real.sqrt p / 138) :=
  rfl

/-- Claim C8: the documented example `coax_core_diameter 0.01 2.1 50` lies
strictly between `0` and the outer diameter `0.01`, and a zero target
impedance returns the outer diameter unchanged (for any nonnegative
permittivity). -/
theorem C8_coax_bounds :
    (0 < coax_core_diameter 0.01 2.1 50 ∧
        coax_core_diameter 0.01 2.1 50 < 0.01) ∧
      ∀ od p : ℝ, 0 ≤ p → coax_core_diameter od p 0 = od := by
  constructor
  · have hs : 0 < Real.sqrt 2.1 := Real.sqrt_pos.mpr (by norm_num)
    have he : 0 < 50 * Real.sqrt 2.1 / 138 := by positivity
    have hb : (1 : ℝ) < (10 : ℝ) ^ (50 * Real.sqrt 2.1 / 138) :=
      (Real.one_lt_rpow_iff_of_pos (by norm_num)).mpr
        (Or.inl ⟨by norm_num, he⟩)
    have hbpos : (0 : ℝ) < (10 : ℝ) ^ (50 * Real.sqrt 2.1 / 138) := by
      linarith
    constructor
    · exact div_pos (by norm_num) hbpos
    · exact div_lt_self (by norm_num) hb
  · intro od p _
    unfold coax_core_diameter
    rw [zero_mul, zero_div, Real.rpow_zero, div_one]

/-- Witness for C8 at `outer_diameter = 1`, `permittivity = 4`. -/
theorem C8_coax_bounds_witness :
    0 ≤ (4 : ℝ) ∧ coax_core_diameter 1 4 0 = 1 :=
  ⟨by norm_num, C8_coax_bounds.2 1 4 (by norm_num)⟩

/-- Numeric bounds on the miter value at ratio `1/4` (e.g. `miter 1 4`):
it lies between `0.95` and `1.006`, far from the `≈1.169` given in the
specification. -/
theorem miter_quarter_ratio_bounds :
    0.95 ≤ 0.52 + (0.65 * Real.exp (-(27 / 20) * 1 / 4)) ∧
      0.52 + (0.65 * Real.exp (-(27 / 20) * 1 / 4)) ≤ 1.006 := by
  have harg : (-(27 / 20) * 1 / 4 : ℝ) = -(27 / 80) := by norm_num
  rw [harg]
  have hup : Real.exp (-(27 / 80)) ≤ 1 / (1 + 27 / 80) :=
    exp_neg_le_one_div (27 / 80) (by norm_num)
  have hlo : 1 - 27 / 80 ≤ Real.exp (-(27 / 80)) := by
    have := Real.add_one_le_exp (-(27 / 80) : ℝ)
    linarith
  constructor
  · nlinarith
  · nlinarith

/-- Claim C6 counterexample: the ratio `0.25` example.  `miter 1 4`
(ratio exactly `0.25`) succeeds, but its value is more than `0.1` away
from the `≈1.169` claimed by the specification (the true value is
`≈0.984`). -/
theorem C6_counterexample :
    (0.25 : ℝ) ≤ 1 / 4 ∧
      miter 1 4 = Except.ok (0.52 + (0.65 * Real.exp (-(27 / 20) * 1 / 4))) ∧
      0.1 < |(0.52 + (0.65 * Real.exp (-(27 / 20) * 1 / 4))) - 1.169| := by
  refine ⟨by norm_num, miter_eq_of_ratio 1 4 (by norm_num), ?_⟩
  have hub := miter_quarter_ratio_bounds.2
  calc (0.1 : ℝ)
      < 1.169 - (0.52 + (0.65 * Real.exp (-(27 / 20) * 1 / 4))) := by linarith
    _ ≤ |1.169 - (0.52 + (0.65 * Real.exp (-(27 / 20) * 1 / 4)))| :=
        le_abs_self _
    _ = |(0.52 + (0.65 * Real.exp (-(27 / 20) * 1 / 4))) - 1.169| :=
        abs_sub_comm _ _

/-- Claim C6 (amended): for every valid ratio (at least `0.25`) the miter
value lies in `(0.52, 1.17]`; ratio `1.0` yields a value within `0.1` of
`0.69996` (true value `≈0.6885`), and ratio `0.25` yields a value within
`0.1` of `0.984` — not of the `1.169` stated by the specification. -/
theorem C6_miter_range :
    (∀ w h v : ℝ, 0.25 ≤ w / h → miter w h = Except.ok v →
        0.52 < v ∧ v ≤ 1.17) ∧
      (∀ v : ℝ, miter 1 1 = Except.ok v → |v - 0.69996| ≤ 0.1) ∧
      (∀ v : ℝ, miter 1 4 = Except.ok v → |v - 0.984| ≤ 0.1) := by
  refine ⟨?_, ?_, ?_⟩
  · intro w h v hr heq
    rw [miter_eq_of_ratio w h hr, Except.ok.injEq] at heq
    subst heq
    have hratio : (0 : ℝ) ≤ w / h := le_trans (by norm_num) hr
    have hexparg : -(27 / 20) * w / h ≤ 0 := by
      have : -(27 / 20) * w / h = -((27 / 20) * (w / h)) := by ring
      rw [this]
      nlinarith
    have hle1 : Real.exp (-(27 / 20) * w / h) ≤ 1 :=
      Real.exp_le_one_iff.mpr hexparg
    have hpos : 0 < Real.exp (-(27 / 20) * w / h) := Real.exp_pos _
    constructor
    · nlinarith
    · nlinarith
  · intro v heq
    rw [miter_eq_of_ratio 1 1 (by norm_num), Except.ok.injEq] at heq
    subst heq
    have harg : (-(27 / 20) * 1 / 1 : ℝ) = -(27 / 20) := by norm_num
    rw [harg]
    have hup : Real.exp (-(27 / 20)) ≤ 1 / (1 + 27 / 20) :=
      exp_neg_le_one_div (27 / 20) (by norm_num)
    have hmul : Real.exp (27 / 20) ≤ 2.7182818286 * (20 / 13) := by
      have hsplit : (27 / 20 : ℝ) = 1 + 7 / 20 := by norm_num
      rw [hsplit, Real.exp_add]
      have h1 : Real.exp 1 ≤ 2.7182818286 := le_of_lt Real.exp_one_lt_d9
      have h2 : Real.exp (7 / 20) ≤ 20 / 13 := by
        have := exp_neg_le_one_div (-(7 / 20)) (by norm_num)
        rw [neg_neg] at this
        calc Real.exp (7 / 20) ≤ 1 / (1 + -(7 / 20)) := this
          _ = 20 / 13 := by norm_num
      have h3 : 0 < Real.exp 1 := Real.exp_pos 1
      have h4 : 0 < Real.exp (7 / 20) := Real.exp_pos _
      nlinarith
    have hlo : 1 / (2.7182818286 * (20 / 13)) ≤ Real.exp (-(27 / 20)) := by
      rw [Real.exp_neg]
      have hpos : (0 : ℝ) < Real.exp (27 / 20) := Real.exp_pos _
      rw [inv_eq_one_div]
      exact one_div_le_one_div_of_le hpos hmul
    rw [abs_le]
    constructor
    · nlinarith
    · nlinarith
  · intro v heq
    rw [miter_eq_of_ratio 1 4 (by norm_num), Except.ok.injEq] at heq
    subst heq
    have hlo := miter_quarter_ratio_bounds.1
    have hub := miter_quarter_ratio_bounds.2
    rw [abs_le]
    constructor
    · linarith
    · linarith

/-- Witness for the amended C6, exercising all three conjuncts at concrete
inputs: ratio `1/2` for the range, and the two documented example ratios. -/
theorem C6_miter_range_witness :
    (0.52 < 0.52 + (0.65 * Real.exp (-(27 / 20) * 1 / 2)) ∧
        0.52 + (0.65 * Real.exp (-(27 / 20) * 1 / 2)) ≤ 1.17) ∧
      |(0.52 + (0.65 * Real.exp (-(27 / 20) * 1 / 1))) - 0.69996| ≤ 0.1 ∧
      |(0.52 + (0.65 * Real.exp (-(27 / 20) * 1 / 4))) - 0.984| ≤ 0.1 :=
  ⟨C6_miter_range.1 1 2 _ (by norm_num) (miter_eq_of_ratio 1 2 (by norm_num)),
    C6_miter_range.2.1 _ (miter_eq_of_ratio 1 1 (by norm_num)),
    C6_miter_range.2.2 _ (miter_eq_of_ratio 1 4 (by norm_num))⟩

/-! Positivity and strict monotonicity of `wheeler_z0` on the domain
`0 < w`, `0 < t`, `0 < h`, `1 ≤ er`, `t ≤ h` -/

/-- On the physical domain with `t ≤ h`, the thickness-correction logarithm
inside `weff` is nonnegative, so the effective width is at least `w`. -/
theorem le_weff (w t er h : ℝ) (hw : 0 < w) (ht : 0 < t) (hh : 0 < h)
    (her : 1 ≤ er) (hth : t ≤ h) : w ≤ wheeler_weff w t er h := by
  have hpi : 0 < π := Real.pi_pos
  have her0 : 0 < er := lt_of_lt_of_le one_pos her
  have hc : 0 ≤ t * ((1 + 1 / er) / (2 * π)) := by positivity
  have hS_nn : 0 ≤ (t / h) ^ 2 + ((1 / π) * (1 / ((w / t) + 11 / 10))) ^ 2 := by
    positivity
  have hS_ub : (t / h) ^ 2 + ((1 / π) * (1 / ((w / t) + 11 / 10))) ^ 2 ≤ 2 := by
    have h1 : (t / h) ^ 2 ≤ 1 := by
      have hle : t / h ≤ 1 := (div_le_one hh).mpr hth
      have h0 : 0 ≤ t / h := by positivity
      nlinarith
    have h2 : ((1 / π) * (1 / ((w / t) + 11 / 10))) ^ 2 ≤ 1 := by
      have hwt : 0 < w / t := by positivity
      have hd : 0 < (w / t) + 11 / 10 := by linarith
      have hrec : 1 / ((w / t) + 11 / 10) ≤ 1 / (11 / 10) := by
        apply one_div_le_one_div_of_le
        · norm_num
        · linarith
      have hnn : 0 ≤ 1 / ((w / t) + 11 / 10) := by positivity
      have hp3 : 1 / π ≤ 1 / 3 := by
        apply one_div_le_one_div_of_le
        · norm_num
        · have := Real.pi_gt_d6
          linarith
      have hpnn : 0 ≤ 1 / π := by positivity
      have hprod : (1 / π) * (1 / ((w / t) + 11 / 10)) ≤ (1 / 3) * (1 / (11 / 10)) :=
        mul_le_mul hp3 hrec hnn (by norm_num)
      have hprodnn : 0 ≤ (1 / π) * (1 / ((w / t) + 11 / 10)) :=
        mul_nonneg hpnn hnn
      nlinarith
    linarith
  have hsqrt_ub :
      Real.sqrt ((t / h) ^ 2 + ((1 / π) * (1 / ((w / t) + 11 / 10))) ^ 2) ≤ 2 := by
    have h1 := Real.sqrt_le_sqrt hS_ub
    have h2 : Real.sqrt 2 ≤ Real.sqrt ((2 : ℝ) ^ 2) :=
      Real.sqrt_le_sqrt (by norm_num)
    rw [Real.sqrt_sq (by norm_num : (0 : ℝ) ≤ 2)] at h2
    linarith
  have hsqrt_pos :
      0 < Real.sqrt ((t / h) ^ 2 + ((1 / π) * (1 / ((w / t) + 11 / 10))) ^ 2) := by
    apply Real.sqrt_pos.mpr
    have : 0 < (t / h) ^ 2 := by positivity
    positivity
  have he : (8 : ℝ) ≤ 4 * Real.exp 1 := by
    have := Real.exp_one_gt_d9
    linarith
  have hquot : 1 ≤ (4 * Real.exp 1) /
      Real.sqrt ((t / h) ^ 2 + ((1 / π) * (1 / ((w / t) + 11 / 10))) ^ 2) := by
    rw [le_div_iff hsqrt_pos]
    linarith
  have hlog : 0 ≤ Real.log ((4 * Real.exp 1) /
      Real.sqrt ((t / h) ^ 2 + ((1 / π) * (1 / ((w / t) + 11 / 10))) ^ 2)) :=
    Real.log_nonneg hquot
  unfold wheeler_weff
  nlinarith [mul_nonneg hc hlog]

/-- The effective width is positive on the domain. -/
theorem weff_pos (w t er h : ℝ) (hw : 0 < w) (ht : 0 < t) (hh : 0 < h)
    (her : 1 ≤ er) (hth : t ≤ h) : 0 < wheeler_weff w t er h :=
  lt_of_lt_of_le hw (le_weff w t er h hw ht hh her hth)

/-- Intermediate value `tmp1 = 4 h / weff` is positive on the domain. -/
theorem tmp1_pos (w t er h : ℝ) (hw : 0 < w) (ht : 0 < t) (hh : 0 < h)
    (her : 1 ≤ er) (hth : t ≤ h) : 0 < wheeler_tmp1 w t er h := by
  unfold wheeler_tmp1
  exact div_pos (by linarith) (weff_pos w t er h hw ht hh her hth)

/-- Intermediate value `tmp2 = (14 + 8/er)/11` is positive for positive `er`. -/
theorem tmp2_pos (er : ℝ) (her0 : 0 < er) : 0 < wheeler_tmp2 er := by
  unfold wheeler_tmp2
  positivity

/-- The argument of the outer logarithm exceeds `1` on the domain. -/
theorem one_lt_arg (w t er h : ℝ) (hw : 0 < w) (ht : 0 < t) (hh : 0 < h)
    (her : 1 ≤ er) (hth : t ≤ h) : 1 < wheeler_arg w t er h := by
  have her0 : 0 < er := lt_of_lt_of_le one_pos her
  have h1 := tmp1_pos w t er h hw ht hh her hth
  have h2 := tmp2_pos er her0
  have hu : 0 < wheeler_tmp2 er * wheeler_tmp1 w t er h := mul_pos h2 h1
  have hs : 0 ≤ Real.sqrt ((wheeler_tmp2 er * wheeler_tmp1 w t er h) ^ 2 +
      π ^ 2 * ((1 + 1 / er) / 2)) := Real.sqrt_nonneg _
  unfold wheeler_arg
  nlinarith

/-- The constant prefactor of Wheeler's formula is positive for `er ≥ 1`. -/
theorem coeff_pos (er : ℝ) (her : 1 ≤ er) :
    0 < 376.730313668 / (2 * π * Real.sqrt (2 * (1 + er))) := by
  have h1 : (0 : ℝ) < 2 * (1 + er) := by linarith
  have h2 : 0 < Real.sqrt (2 * (1 + er)) := Real.sqrt_pos.mpr h1
  have hpi : 0 < π := Real.pi_pos
  positivity

/-- Claim C3 helper: `wheeler_z0` is strictly positive on the domain
`w, t, h > 0`, `er ≥ 1`, `t ≤ h`. -/
theorem wheeler_z0_pos (w t er h : ℝ) (hw : 0 < w) (ht : 0 < t) (hh : 0 < h)
    (her : 1 ≤ er) (hth : t ≤ h) : 0 < wheeler_z0 w t er h := by
  unfold wheeler_z0
  exact mul_pos (coeff_pos er her)
    (Real.log_pos (one_lt_arg w t er h hw ht hh her hth))

/-- The effective width is strictly increasing in the trace width on the
domain. -/
theorem weff_strict_mono (w1 w2 t er h : ℝ) (hw1 : 0 < w1) (hw12 : w1 < w2)
    (ht : 0 < t) (hh : 0 < h) (her : 1 ≤ er) :
    wheeler_weff w1 t er h < wheeler_weff w2 t er h := by
  have hpi : 0 < π := Real.pi_pos
  have her0 : 0 < er := lt_of_lt_of_le one_pos her
  have hw2 : 0 < w2 := lt_trans hw1 hw12
  have hd1 : 0 < (w1 / t) + 11 / 10 := by positivity
  have hd2 : 0 < (w2 / t) + 11 / 10 := by
    have : 0 < w2 / t := div_pos hw2 ht
    linarith
  have hdlt : (w1 / t) + 11 / 10 < (w2 / t) + 11 / 10 := by
    have : w1 / t < w2 / t := by
      apply div_lt_div_of_pos_right hw12 ht
    linarith
  have hrec : 1 / ((w2 / t) + 11 / 10) < 1 / ((w1 / t) + 11 / 10) :=
    one_div_lt_one_div_of_lt hd1 hdlt
  have hrec2 : 0 < 1 / ((w2 / t) + 11 / 10) := by positivity
  have hpinv : 0 < 1 / π := by positivity
  have hterm : ((1 / π) * (1 / ((w2 / t) + 11 / 10))) ^ 2 <
      ((1 / π) * (1 / ((w1 / t) + 11 / 10))) ^ 2 := by
    have ha : 0 < (1 / π) * (1 / ((w2 / t) + 11 / 10)) := mul_pos hpinv hrec2
    have hb : (1 / π) * (1 / ((w2 / t) + 11 / 10)) <
        (1 / π) * (1 / ((w1 / t) + 11 / 10)) :=
      mul_lt_mul_of_pos_left hrec hpinv
    nlinarith
  have hS2_pos : 0 < (t / h) ^ 2 + ((1 / π) * (1 / ((w2 / t) + 11 / 10))) ^ 2 := by
    have : 0 < (t / h) ^ 2 := by positivity
    positivity
  have hSlt : (t / h) ^ 2 + ((1 / π) * (1 / ((w2 / t) + 11 / 10))) ^ 2 <
      (t / h) ^ 2 + ((1 / π) * (1 / ((w1 / t) + 11 / 10))) ^ 2 := by
    linarith
  have hsqrt_lt :
      Real.sqrt ((t / h) ^ 2 + ((1 / π) * (1 / ((w2 / t) + 11 / 10))) ^ 2) <
        Real.sqrt ((t / h) ^ 2 + ((1 / π) * (1 / ((w1 / t) + 11 / 10))) ^ 2) :=
    Real.sqrt_lt_sqrt (le_of_lt hS2_pos) hSlt
  have hsqrt2_pos :
      0 < Real.sqrt ((t / h) ^ 2 + ((1 / π) * (1 / ((w2 / t) + 11 / 10))) ^ 2) :=
    Real.sqrt_pos.mpr hS2_pos
  have hquot_lt : (4 * Real.exp 1) /
      Real.sqrt ((t / h) ^ 2 + ((1 / π) * (1 / ((w1 / t) + 11 / 10))) ^ 2) <
        (4 * Real.exp 1) /
      Real.sqrt ((t / h) ^ 2 + ((1 / π) * (1 / ((w2 / t) + 11 / 10))) ^ 2) :=
    div_lt_div_of_pos_left (by positivity) hsqrt2_pos hsqrt_lt
  have hquot1_pos : 0 < (4 * Real.exp 1) /
      Real.sqrt ((t / h) ^ 2 + ((1 / π) * (1 / ((w1 / t) + 11 / 10))) ^ 2) := by
    apply div_pos (by positivity)
    apply Real.sqrt_pos.mpr
    have : 0 < (t / h) ^ 2 := by positivity
    positivity
  have hlog_lt := Real.log_lt_log hquot1_pos hquot_lt
  have hc : 0 < t * ((1 + 1 / er) / (2 * π)) := by positivity
  unfold wheeler_weff
  nlinarith [mul_lt_mul_of_pos_left hlog_lt hc]

/-- Claim C3 helper: `wheeler_z0` is strictly decreasing in the trace width
on the domain `w, t, h > 0`, `er ≥ 1`, `t ≤ h`. -/
theorem wheeler_z0_strict_anti (w1 w2 t er h : ℝ) (hw1 : 0 < w1)
    (hw12 : w1 < w2) (ht : 0 < t) (hh : 0 < h) (her : 1 ≤ er) (hth : t ≤ h) :
    wheeler_z0 w2 t er h < wheeler_z0 w1 t er h := by
  have her0 : 0 < er := lt_of_lt_of_le one_pos her
  have hw2 : 0 < w2 := lt_trans hw1 hw12
  have hweff1 := weff_pos w1 t er h hw1 ht hh her hth
  have hweff2 := weff_pos w2 t er h hw2 ht hh her hth
  have hweff_lt := weff_strict_mono w1 w2 t er h hw1 hw12 ht hh her
  have htmp1_lt : wheeler_tmp1 w2 t er h < wheeler_tmp1 w1 t er h := by
    unfold wheeler_tmp1
    exact div_lt_div_of_pos_left (by linarith) hweff1 hweff_lt
  have htmp1_2 := tmp1_pos w2 t er h hw2 ht hh her hth
  have htmp2 := tmp2_pos er her0
  have hu_lt : wheeler_tmp2 er * wheeler_tmp1 w2 t er h <
      wheeler_tmp2 er * wheeler_tmp1 w1 t er h :=
    mul_lt_mul_of_pos_left htmp1_lt htmp2
  have hu2 : 0 < wheeler_tmp2 er * wheeler_tmp1 w2 t er h :=
    mul_pos htmp2 htmp1_2
  have hsq_le :
      Real.sqrt ((wheeler_tmp2 er * wheeler_tmp1 w2 t er h) ^ 2 +
          π ^ 2 * ((1 + 1 / er) / 2)) ≤
        Real.sqrt ((wheeler_tmp2 er * wheeler_tmp1 w1 t er h) ^ 2 +
          π ^ 2 * ((1 + 1 / er) / 2)) := by
    apply Real.sqrt_le_sqrt
    nlinarith
  have hsq2_nn :
      0 ≤ Real.sqrt ((wheeler_tmp2 er * wheeler_tmp1 w2 t er h) ^ 2 +
          π ^ 2 * ((1 + 1 / er) / 2)) := Real.sqrt_nonneg _
  have hg_lt : wheeler_tmp2 er * wheeler_tmp1 w2 t er h +
      Real.sqrt ((wheeler_tmp2 er * wheeler_tmp1 w2 t er h) ^ 2 +
        π ^ 2 * ((1 + 1 / er) / 2)) <
      wheeler_tmp2 er * wheeler_tmp1 w1 t er h +
      Real.sqrt ((wheeler_tmp2 er * wheeler_tmp1 w1 t er h) ^ 2 +
        π ^ 2 * ((1 + 1 / er) / 2)) := by linarith
  have hg2_pos : 0 < wheeler_tmp2 er * wheeler_tmp1 w2 t er h +
      Real.sqrt ((wheeler_tmp2 er * wheeler_tmp1 w2 t er h) ^ 2 +
        π ^ 2 * ((1 + 1 / er) / 2)) := by linarith
  have harg_lt : wheeler_arg w2 t er h < wheeler_arg w1 t er h := by
    unfold wheeler_arg
    nlinarith
  have harg2 := one_lt_arg w2 t er h hw2 ht hh her hth
  have hlog_lt := Real.log_lt_log (by linarith) harg_lt
  unfold wheeler_z0
  exact mul_lt_mul_of_pos_left hlog_lt (coeff_pos er her)

/-- Claim C3 (amended): on the domain `w, t, h > 0`, `er ≥ 1` restricted by
`t ≤ h` (trace no thicker than the substrate), `wheeler_z0` is strictly
positive and strictly decreasing in the trace width `w`. -/
theorem C3_wheeler_z0_pos_anti (w t er h : ℝ) (hw : 0 < w) (ht : 0 < t)
    (hh : 0 < h) (her : 1 ≤ er) (hth : t ≤ h) :
    0 < wheeler_z0 w t er h ∧
      ∀ w2, w < w2 → wheeler_z0 w2 t er h < wheeler_z0 w t er h :=
  ⟨wheeler_z0_pos w t er h hw ht hh her hth,
    fun w2 hw2 => wheeler_z0_strict_anti w w2 t er h hw hw2 ht hh her hth⟩

/-- Witness for the amended C3 at `w = 1`, `t = 1`, `er = 1`, `h = 1`,
comparing against `w2 = 2`. -/
theorem C3_wheeler_z0_pos_anti_witness :
    0 < wheeler_z0 1 1 1 1 ∧ wheeler_z0 2 1 1 1 < wheeler_z0 1 1 1 1 :=
  ⟨(C3_wheeler_z0_pos_anti 1 1 1 1 (by norm_num) (by norm_num) (by norm_num)
      (le_refl 1) (le_refl 1)).1,
    (C3_wheeler_z0_pos_anti 1 1 1 1 (by norm_num) (by norm_num) (by norm_num)
      (le_refl 1) (le_refl 1)).2 2 (by norm_num)⟩

/-! The counterexample point `w = 1/1000`, `t = 1`, `er = 1`,
`h = 1/1000` (trace much thicker than the substrate) -/

/-- For any square-root argument at least `10^6`, the thickness-correction
logarithm is below `-4.452`. -/
theorem logterm_ub_of_big (S : ℝ) (hS1 : (1000000 : ℝ) ≤ S) :
    Real.log ((4 * Real.exp 1) / Real.sqrt S) ≤ -(4452 / 1000) := by
  have hS0 : (0 : ℝ) < S := by linarith
  have hsq_pos : 0 < Real.sqrt S := Real.sqrt_pos.mpr hS0
  have heq : Real.log ((4 * Real.exp 1) / Real.sqrt S) =
      Real.log 4 + 1 - Real.log S / 2 := by
    rw [Real.log_div (by positivity) (ne_of_gt hsq_pos),
      Real.log_mul (by norm_num) (Real.exp_ne_zero 1), Real.log_exp,
      Real.log_sqrt (le_of_lt hS0)]
  have hlogS : Real.log (1000000 : ℝ) ≤ Real.log S :=
    Real.log_le_log (by norm_num) hS1
  have h6 : Real.log (1000000 : ℝ) = 6 * Real.log 10 := by
    rw [show (1000000 : ℝ) = 10 ^ (6 : ℕ) by norm_num, Real.log_pow]
    push_cast
    ring
  have h4 : Real.log (4 : ℝ) = 2 * Real.log 2 := by
    rw [show (4 : ℝ) = 2 ^ (2 : ℕ) by norm_num, Real.log_pow]
    push_cast
    ring
  have h5 : Real.log (5 : ℝ) = Real.log 4 + Real.log (5 / 4) := by
    rw [← Real.log_mul (by norm_num) (by norm_num)]
    norm_num
  have h10 : Real.log (10 : ℝ) = Real.log 2 + Real.log 5 := by
    rw [← Real.log_mul (by norm_num) (by norm_num)]
    norm_num
  have h54 : (1 / 5 : ℝ) ≤ Real.log (5 / 4) := by
    have := one_sub_inv_le_log (5 / 4) (by norm_num)
    norm_num at this
    linarith
  have hl2_lb : (0.6931471803 : ℝ) < Real.log 2 := by
    have := Real.log_two_gt_d9
    norm_num at this ⊢
    linarith
  rw [heq, h4]
  rw [h6, h10, h5, h4] at hlogS
  linarith

/-- At the counterexample point the effective width is far below zero. -/
theorem weff_ce : wheeler_weff (1 / 1000) 1 1 (1 / 1000) < -(4 / 3) := by
  have hpi_ub : π < 3.141593 := Real.pi_lt_d6
  have hpi : 0 < π := Real.pi_pos
  have hS_lb : (1000000 : ℝ) ≤
      ((1 : ℝ) / (1 / 1000)) ^ 2 +
        ((1 / π) * (1 / ((1 / 1000 / 1) + 11 / 10))) ^ 2 := by
    have h2 : 0 ≤ ((1 / π) * (1 / ((1 / 1000 / 1 : ℝ) + 11 / 10))) ^ 2 :=
      sq_nonneg _
    have h1 : ((1 : ℝ) / (1 / 1000)) ^ 2 = 1000000 := by norm_num
    linarith
  have hL := logterm_ub_of_big _ hS_lb
  unfold wheeler_weff
  have hc_eq : ((1 : ℝ) * ((1 + 1 / 1) / (2 * π))) = 1 / π := by
    field_simp
    norm_num
  rw [hc_eq]
  have hinv : 1 / (3.141593 : ℝ) ≤ 1 / π :=
    one_div_le_one_div_of_le hpi (le_of_lt hpi_ub)
  have hinv_pos : 0 < 1 / π := by positivity
  nlinarith [mul_le_mul_of_nonneg_left hL (le_of_lt hinv_pos)]

/-- At the counterexample point `tmp1` is a small negative number. -/
theorem tmp1_ce : wheeler_tmp1 (1 / 1000) 1 1 (1 / 1000) < 0 ∧
    -(3 / 1000) < wheeler_tmp1 (1 / 1000) 1 1 (1 / 1000) := by
  have hweff := weff_ce
  have hweff_neg : wheeler_weff (1 / 1000) 1 1 (1 / 1000) < 0 := by linarith
  constructor
  · unfold wheeler_tmp1
    exact div_neg_of_pos_of_neg (by norm_num) hweff_neg
  · unfold wheeler_tmp1
    rw [lt_div_iff_of_neg hweff_neg]
    nlinarith

/-- At the counterexample point the argument of the outer logarithm lies
strictly between `0` and `1`. -/
theorem arg_ce : 0 < wheeler_arg (1 / 1000) 1 1 (1 / 1000) ∧
    wheeler_arg (1 / 1000) 1 1 (1 / 1000) < 1 := by
  obtain ⟨htmp1_neg, htmp1_lb⟩ := tmp1_ce
  have hpi_lb : (3.141592 : ℝ) < π := Real.pi_gt_d6
  have hpi_ub : π < 3.141593 := Real.pi_lt_d6
  have htmp2 : wheeler_tmp2 1 = 2 := by
    unfold wheeler_tmp2
    norm_num
  unfold wheeler_arg
  rw [htmp2, show ((1 + 1 / (1 : ℝ)) / 2) = 1 by norm_num, mul_one]
  set a := wheeler_tmp1 (1 / 1000) 1 1 (1 / 1000) with ha
  have hsq_ub : Real.sqrt ((2 * a) ^ 2 + π ^ 2) ≤ π + 1 / 100 := by
    have h1 : Real.sqrt ((2 * a) ^ 2 + π ^ 2) ≤
        Real.sqrt ((π + 1 / 100) ^ 2) := by
      apply Real.sqrt_le_sqrt
      nlinarith
    rwa [Real.sqrt_sq (by positivity)] at h1
  have hsq_lb : π ≤ Real.sqrt ((2 * a) ^ 2 + π ^ 2) := by
    have h1 : Real.sqrt (π ^ 2) ≤ Real.sqrt ((2 * a) ^ 2 + π ^ 2) := by
      apply Real.sqrt_le_sqrt
      nlinarith [sq_nonneg (2 * a)]
    rwa [Real.sqrt_sq (le_of_lt Real.pi_pos)] at h1
  have hg_pos : 0 < 2 * a + Real.sqrt ((2 * a) ^ 2 + π ^ 2) := by nlinarith
  have hg_ub : 2 * a + Real.sqrt ((2 * a) ^ 2 + π ^ 2) ≤ 316 / 100 := by
    nlinarith
  have hf_neg : a * (2 * a + Real.sqrt ((2 * a) ^ 2 + π ^ 2)) < 0 :=
    mul_neg_of_neg_of_pos htmp1_neg hg_pos
  have hf_lb : -(12 / 1000) <
      a * (2 * a + Real.sqrt ((2 * a) ^ 2 + π ^ 2)) := by
    nlinarith [mul_lt_mul_of_pos_right htmp1_lb hg_pos,
      mul_le_mul_of_nonpos_left hg_ub
        (show (-(3 / 1000) : ℝ) ≤ 0 by norm_num)]
  constructor
  · linarith
  · linarith

/-- Claim C3 counterexample: at `w = 1/1000`, `t = 1`, `er = 1`,
`h = 1/1000` — all satisfying `w, t, h > 0` and `er ≥ 1` — Wheeler's
formula as implemented returns a negative impedance, so it is not a finite
strictly positive value on the whole claimed domain. -/
theorem C3_counterexample :
    0 < (1 / 1000 : ℝ) ∧ 0 < (1 : ℝ) ∧ 0 < (1 / 1000 : ℝ) ∧ 1 ≤ (1 : ℝ) ∧
      wheeler_z0 (1 / 1000) 1 1 (1 / 1000) < 0 := by
  refine ⟨by norm_num, by norm_num, by norm_num, le_refl 1, ?_⟩
  obtain ⟨harg_pos, harg_lt1⟩ := arg_ce
  have hcoeff := coeff_pos 1 (le_refl 1)
  unfold wheeler_z0
  exact mul_neg_of_pos_of_neg hcoeff (Real.log_neg harg_pos harg_lt1)

/-! The inverse solver: loop soundness and the bracket invariant. -/

/-- Whenever the low-bracket loop terminates, the returned width has
impedance at least the target (the loop's exit condition). -/
theorem bracketLowAux_sound (z0 t er h : ℝ) :
    ∀ (fuel : ℕ) (w0 wl : ℝ), bracketLowAux z0 t er h fuel w0 = some wl →
      z0 ≤ wheeler_z0 wl t er h := by
  intro fuel
  induction fuel with
  | zero =>
    intro w0 wl hsome
    unfold bracketLowAux at hsome
    by_cases hc : wheeler_z0 w0 t er h < z0
    · rw [if_pos hc] at hsome
      exact Option.noConfusion hsome
    · rw [if_neg hc] at hsome
      obtain rfl := Option.some.inj hsome
      exact not_lt.mp hc
  | succ n ih =>
    intro w0 wl hsome
    unfold bracketLowAux at hsome
    by_cases hc : wheeler_z0 w0 t er h < z0
    · rw [if_pos hc] at hsome
      exact ih _ _ hsome
    · rw [if_neg hc] at hsome
      obtain rfl := Option.some.inj hsome
      exact not_lt.mp hc

/-- Whenever the high-bracket loop terminates, the returned width has
impedance at most the target. -/
theorem bracketHighAux_sound (z0 t er h : ℝ) :
    ∀ (fuel : ℕ) (w0 wh : ℝ), bracketHighAux z0 t er h fuel w0 = some wh →
      wheeler_z0 wh t er h ≤ z0 := by
  intro fuel
  induction fuel with
  | zero =>
    intro w0 wh hsome
    unfold bracketHighAux at hsome
    by_cases hc : wheeler_z0 w0 t er h > z0
    · rw [if_pos hc] at hsome
      exact Option.noConfusion hsome
    · rw [if_neg hc] at hsome
      obtain rfl := Option.some.inj hsome
      exact not_lt.mp hc
  | succ n ih =>
    intro w0 wh hsome
    unfold bracketHighAux at hsome
    by_cases hc : wheeler_z0 w0 t er h > z0
    · rw [if_pos hc] at hsome
      exact ih _ _ hsome
    · rw [if_neg hc] at hsome
      obtain rfl := Option.some.inj hsome
      exact not_lt.mp hc

/-- Unfolding of the interpolation step in the `zm > z0` branch. -/
theorem interpStep_if (z0 t er h : ℝ) (s : SolveState) (hc : s.zm > z0) :
    interpStep z0 t er h s =
      { wlow := s.width, zlow := s.zm, whigh := s.whigh, zhigh := s.zhigh,
        width := s.width +
          ((z0 - s.zm) / ((s.zhigh - s.zm) / (s.whigh - s.width))),
        zm := wheeler_z0 (s.width +
          ((z0 - s.zm) / ((s.zhigh - s.zm) / (s.whigh - s.width)))) t er h } := by
  unfold interpStep
  rw [if_pos hc]

/-- Unfolding of the interpolation step in the `zm ≤ z0` branch. -/
theorem interpStep_else (z0 t er h : ℝ) (s : SolveState) (hc : ¬s.zm > z0) :
    interpStep z0 t er h s =
      { wlow := s.wlow, zlow := s.zlow, whigh := s.width, zhigh := s.zm,
        width := s.width +
          ((z0 - s.zm) / ((s.zm - s.zlow) / (s.width - s.wlow))),
        zm := wheeler_z0 (s.width +
          ((z0 - s.zm) / ((s.zm - s.zlow) / (s.width - s.wlow)))) t er h } := by
  unfold interpStep
  rw [if_neg hc]

/-- The interpolation step always re-pairs `zm` with the new width. -/
theorem interpStep_pair (z0 t er h : ℝ) (s : SolveState) :
    (interpStep z0 t er h s).zm =
      wheeler_z0 (interpStep z0 t er h s).width t er h := by
  by_cases hc : s.zm > z0
  · rw [interpStep_if z0 t er h s hc]
  · rw [interpStep_else z0 t er h s hc]

/-- Whenever the interpolation loop returns a width, that width's impedance
is within `tol` of the target: the loop's sole exit condition is the
absolute impedance error. -/
theorem interpLoop_sound (z0 t er h tol : ℝ) :
    ∀ (fuel : ℕ) (s : SolveState) (w : ℝ),
      s.zm = wheeler_z0 s.width t er h →
      interpLoop z0 t er h tol fuel s = some w →
      |wheeler_z0 w t er h - z0| ≤ tol := by
  intro fuel
  induction fuel with
  | zero =>
    intro s w hpair hsome
    unfold interpLoop at hsome
    by_cases hc : |s.zm - z0| > tol
    · rw [if_pos hc] at hsome
      exact Option.noConfusion hsome
    · rw [if_neg hc] at hsome
      obtain rfl := Option.some.inj hsome
      rw [← hpair]
      exact not_lt.mp hc
  | succ n ih =>
    intro s w hpair hsome
    unfold interpLoop at hsome
    by_cases hc : |s.zm - z0| > tol
    · rw [if_pos hc] at hsome
      exact ih _ _ (interpStep_pair z0 t er h s) hsome
    · rw [if_neg hc] at hsome
      obtain rfl := Option.some.inj hsome
      rw [← hpair]
      exact not_lt.mp hc

/-- Claim C1: whenever `wheeler_z0_width` terminates with width `w`, the
round trip `wheeler_z0 w t er h` is within `tol` of the target `z0`. -/
theorem C1_round_trip (z0 t er h tol guess : ℝ) (fuel : ℕ) (w : ℝ)
    (hsome : wheeler_z0_width z0 t er h tol guess fuel = some w) :
    |wheeler_z0 w t er h - z0| ≤ tol := by
  unfold wheeler_z0_width at hsome
  rcases hbl : bracketLowAux z0 t er h fuel (guess / 10) with _ | wl
  · rw [hbl] at hsome
    exact Option.noConfusion hsome
  · rw [hbl] at hsome
    rcases hbh : bracketHighAux z0 t er h fuel (guess * 10) with _ | wh
    · rw [hbh] at hsome
      exact Option.noConfusion hsome
    · rw [hbh] at hsome
      exact interpLoop_sound z0 t er h tol fuel _ w rfl hsome

/-- One interpolation iteration preserves the bracket invariant, never
decreases the low bracket and never increases the high bracket. -/
theorem interpStep_inv (z0 t er h : ℝ) (s : SolveState)
    (hinv : SolveInv z0 t er h s) :
    SolveInv z0 t er h (interpStep z0 t er h s) ∧
      s.wlow ≤ (interpStep z0 t er h s).wlow ∧
      (interpStep z0 t er h s).whigh ≤ s.whigh := by
  obtain ⟨hpl, hph, hpm, hbl, hbh, hwl, hwh⟩ := hinv
  by_cases hc : s.zm > z0
  · -- current impedance above target: the low bracket moves up to `width`
    have hABne : s.width ≠ s.whigh := by
      intro heq
      have : s.zm = s.zhigh := by rw [hpm, hph, heq]
      linarith
    have hAB : s.width < s.whigh := lt_of_le_of_ne hwh hABne
    have hD_pos : 0 < s.zm - s.zhigh := by linarith
    have hstep_eq : (z0 - s.zm) / ((s.zhigh - s.zm) / (s.whigh - s.width)) =
        (s.zm - z0) * (s.whigh - s.width) / (s.zm - s.zhigh) := by
      rw [div_div_eq_mul_div]
      rw [show (z0 - s.zm) * (s.whigh - s.width) =
        -((s.zm - z0) * (s.whigh - s.width)) by ring]
      rw [show s.zhigh - s.zm = -(s.zm - s.zhigh) by ring]
      rw [neg_div_neg_eq]
    have hd_pos : 0 < (s.zm - z0) * (s.whigh - s.width) / (s.zm - s.zhigh) :=
      div_pos (mul_pos (by linarith) (by linarith)) hD_pos
    have hd_le : (s.zm - z0) * (s.whigh - s.width) / (s.zm - s.zhigh) ≤
        s.whigh - s.width := by
      rw [div_le_iff hD_pos]
      nlinarith
    rw [interpStep_if z0 t er h s hc]
    unfold SolveInv
    dsimp only
    refine ⟨⟨hpm, hph, rfl, by linarith, hbh, ?_, ?_⟩, hwl, le_refl _⟩
    · rw [hstep_eq]
      linarith
    · rw [hstep_eq]
      linarith
  · -- current impedance at or below target
    have hzm_le : s.zm ≤ z0 := not_lt.mp hc
    rw [interpStep_else z0 t er h s hc]
    rcases eq_or_lt_of_le hzm_le with hzm_eq | hzm_lt
    · -- exactly on target: the numerator vanishes and the width is kept
      have hd0 : (z0 - s.zm) / ((s.zm - s.zlow) / (s.width - s.wlow)) = 0 := by
        rw [show z0 - s.zm = 0 by linarith, zero_div]
      unfold SolveInv
      dsimp only
      refine ⟨⟨hpl, hpm, rfl, hbl, by linarith, ?_, ?_⟩, le_refl _, hwh⟩
      · rw [hd0]
        linarith
      · rw [hd0]
        linarith
    · -- strictly below target: the high bracket moves down to `width`
      have hABne : s.wlow ≠ s.width := by
        intro heq
        have : s.zlow = s.zm := by rw [hpl, hpm, heq]
        linarith
      have hAB : s.wlow < s.width := lt_of_le_of_ne hwl hABne
      have hD_pos : 0 < s.zlow - s.zm := by linarith
      have hstep_eq : (z0 - s.zm) / ((s.zm - s.zlow) / (s.width - s.wlow)) =
          -((z0 - s.zm) * (s.width - s.wlow) / (s.zlow - s.zm)) := by
        rw [div_div_eq_mul_div]
        rw [show s.zm - s.zlow = -(s.zlow - s.zm) by ring]
        rw [div_neg]
      have he_pos : 0 < (z0 - s.zm) * (s.width - s.wlow) / (s.zlow - s.zm) :=
        div_pos (mul_pos (by linarith) (by linarith)) hD_pos
      have he_le : (z0 - s.zm) * (s.width - s.wlow) / (s.zlow - s.zm) ≤
          s.width - s.wlow := by
        rw [div_le_iff hD_pos]
        nlinarith
      unfold SolveInv
      dsimp only
      refine ⟨⟨hpl, hpm, rfl, hbl, by linarith, ?_, ?_⟩, le_refl _, hwh⟩
      · rw [hstep_eq]
        linarith
      · rw [hstep_eq]
        linarith

/-! Numeric bounds at the concrete point `t = h = 1/100`, `er = 1`
used by the solver witnesses -/

/-- At `w = 1/10`, `t = h = 1/100`, `er = 1`, the impedance is at least
`10` ohms (its true value is `≈17.9`). -/
theorem z_low_ge : 10 ≤ wheeler_z0 (1 / 10) (1 / 100) 1 (1 / 100) := by
  have hpi_lb : (3.141592 : ℝ) < π := Real.pi_gt_d6
  have hpi_ub : π < 3.141593 := Real.pi_lt_d6
  have hpi : 0 < π := Real.pi_pos
  have hweff_lb : 1 / 10 ≤ wheeler_weff (1 / 10) (1 / 100) 1 (1 / 100) :=
    le_weff _ _ _ _ (by norm_num) (by norm_num) (by norm_num) le_rfl le_rfl
  have hweff_pos : 0 < wheeler_weff (1 / 10) (1 / 100) 1 (1 / 100) := by
    linarith
  have hweff_ub : wheeler_weff (1 / 10) (1 / 100) 1 (1 / 100) ≤ 1076 / 10000 := by
    unfold wheeler_weff
    have hS_ge1 : (1 : ℝ) ≤ ((1 / 100 : ℝ) / (1 / 100)) ^ 2 +
        ((1 / π) * (1 / ((1 / 10 / (1 / 100)) + 11 / 10))) ^ 2 := by
      have h1 : ((1 / 100 : ℝ) / (1 / 100)) ^ 2 = 1 := by norm_num
      have h2 : (0 : ℝ) ≤
          ((1 / π) * (1 / ((1 / 10 / (1 / 100) : ℝ) + 11 / 10))) ^ 2 :=
        sq_nonneg _
      linarith
    have hsqrt_ge1 : 1 ≤ Real.sqrt (((1 / 100 : ℝ) / (1 / 100)) ^ 2 +
        ((1 / π) * (1 / ((1 / 10 / (1 / 100)) + 11 / 10))) ^ 2) := by
      refine (Real.le_sqrt (by norm_num) (by positivity)).mpr ?_
      nlinarith
    have hsqrt_pos : 0 < Real.sqrt (((1 / 100 : ℝ) / (1 / 100)) ^ 2 +
        ((1 / π) * (1 / ((1 / 10 / (1 / 100)) + 11 / 10))) ^ 2) := by
      linarith
    have hdiv_le : (4 * Real.exp 1) / Real.sqrt (((1 / 100 : ℝ) / (1 / 100)) ^ 2 +
        ((1 / π) * (1 / ((1 / 10 / (1 / 100)) + 11 / 10))) ^ 2) ≤
        4 * Real.exp 1 := div_le_self (by positivity) hsqrt_ge1
    have hdiv_pos : 0 < (4 * Real.exp 1) /
        Real.sqrt (((1 / 100 : ℝ) / (1 / 100)) ^ 2 +
          ((1 / π) * (1 / ((1 / 10 / (1 / 100)) + 11 / 10))) ^ 2) :=
      div_pos (by positivity) hsqrt_pos
    have h4 : Real.log (4 : ℝ) = 2 * Real.log 2 := by
      rw [show (4 : ℝ) = 2 ^ (2 : ℕ) by norm_num, Real.log_pow]
      push_cast
      ring
    have h4e : Real.log (4 * Real.exp 1) = 2 * Real.log 2 + 1 := by
      rw [Real.log_mul (by norm_num) (Real.exp_ne_zero 1), Real.log_exp, h4]
    have hl2 : Real.log 2 < 0.6931471808 := by
      have := Real.log_two_lt_d9
      norm_num at this ⊢
      linarith
    have hlog_ub : Real.log ((4 * Real.exp 1) /
        Real.sqrt (((1 / 100 : ℝ) / (1 / 100)) ^ 2 +
          ((1 / π) * (1 / ((1 / 10 / (1 / 100)) + 11 / 10))) ^ 2)) ≤
        23863 / 10000 := by
      have := Real.log_le_log hdiv_pos hdiv_le
      rw [h4e] at this
      linarith
    have hc_eq : ((1 / 100 : ℝ) * ((1 + 1 / 1) / (2 * π))) = 1 / (100 * π) := by
      field_simp
      ring
    rw [hc_eq]
    have hc_nn : (0 : ℝ) ≤ 1 / (100 * π) := by positivity
    have hc_ub : (1 : ℝ) / (100 * π) ≤ 10000 / 3141592 := by
      rw [div_le_div_iff (by positivity) (by norm_num)]
      nlinarith
    have hmul1 := mul_le_mul_of_nonneg_left hlog_ub hc_nn
    have hmul2 : (1 : ℝ) / (100 * π) * (23863 / 10000) ≤
        (10000 / 3141592) * (23863 / 10000) :=
      mul_le_mul_of_nonneg_right hc_ub (by norm_num)
    have hfinal : (10000 / 3141592 : ℝ) * (23863 / 10000) ≤ 76 / 10000 := by
      norm_num
    linarith
  have htmp1_lb : 3717 / 10000 ≤ wheeler_tmp1 (1 / 10) (1 / 100) 1 (1 / 100) := by
    unfold wheeler_tmp1
    rw [le_div_iff hweff_pos]
    nlinarith
  have htmp1_pos : 0 < wheeler_tmp1 (1 / 10) (1 / 100) 1 (1 / 100) :=
    tmp1_pos _ _ _ _ (by norm_num) (by norm_num) (by norm_num) le_rfl le_rfl
  have htmp2 : wheeler_tmp2 1 = 2 := by
    unfold wheeler_tmp2
    norm_num
  have harg_lb : 244 / 100 ≤ wheeler_arg (1 / 10) (1 / 100) 1 (1 / 100) := by
    unfold wheeler_arg
    rw [htmp2, show ((1 + 1 / (1 : ℝ)) / 2) = 1 by norm_num, mul_one]
    set a := wheeler_tmp1 (1 / 10) (1 / 100) 1 (1 / 100) with ha
    have hsq_lb : π ≤ Real.sqrt ((2 * a) ^ 2 + π ^ 2) := by
      have h1 : Real.sqrt (π ^ 2) ≤ Real.sqrt ((2 * a) ^ 2 + π ^ 2) := by
        apply Real.sqrt_le_sqrt
        nlinarith [sq_nonneg (2 * a)]
      rwa [Real.sqrt_sq (le_of_lt hpi)] at h1
    have hfac : (38849 : ℝ) / 10000 ≤ 2 * a + Real.sqrt ((2 * a) ^ 2 + π ^ 2) := by
      nlinarith
    nlinarith [mul_le_mul htmp1_lb hfac (by norm_num) (by linarith)]
  have harg_pos : (0 : ℝ) < wheeler_arg (1 / 10) (1 / 100) 1 (1 / 100) := by
    linarith
  have hlog_lb : (59 : ℝ) / 100 ≤
      Real.log (wheeler_arg (1 / 10) (1 / 100) 1 (1 / 100)) := by
    have h1 := one_sub_inv_le_log (wheeler_arg (1 / 10) (1 / 100) 1 (1 / 100))
      harg_pos
    have h2 : 1 / wheeler_arg (1 / 10) (1 / 100) 1 (1 / 100) ≤ 1 / (244 / 100) :=
      one_div_le_one_div_of_le (by norm_num) harg_lb
    have h3 : (1 : ℝ) - 1 / (244 / 100) ≥ 59 / 100 := by norm_num
    linarith
  unfold wheeler_z0
  rw [show (2 * (1 + (1 : ℝ))) = 2 ^ 2 by norm_num,
    Real.sqrt_sq (by norm_num : (0 : ℝ) ≤ 2)]
  have hcoeff_lb : (29 : ℝ) ≤ 376.730313668 / (2 * π * 2) := by
    rw [le_div_iff (by positivity)]
    nlinarith
  have hcoeff_pos : (0 : ℝ) < 376.730313668 / (2 * π * 2) := by positivity
  nlinarith [mul_le_mul hcoeff_lb hlog_lb (by norm_num) (by linarith)]

/-- Generic upper bound on the impedance at `t = h = 1/100`, `er = 1` from
an upper bound `B` on `tmp1`. -/
theorem z_point_ub (w B : ℝ) (hw : 0 < w)
    (htmp1_ub : wheeler_tmp1 w (1 / 100) 1 (1 / 100) ≤ B) (hB : 0 ≤ B) :
    wheeler_z0 w (1 / 100) 1 (1 / 100) ≤ 30 * (B * (4 * B + 315 / 100)) := by
  have hpi_lb : (3.141592 : ℝ) < π := Real.pi_gt_d6
  have hpi_ub : π < 3.141593 := Real.pi_lt_d6
  have hpi : 0 < π := Real.pi_pos
  have htmp1_pos : 0 < wheeler_tmp1 w (1 / 100) 1 (1 / 100) :=
    tmp1_pos _ _ _ _ hw (by norm_num) (by norm_num) le_rfl le_rfl
  have htmp2 : wheeler_tmp2 1 = 2 := by
    unfold wheeler_tmp2
    norm_num
  have harg_gt1 : 1 < wheeler_arg w (1 / 100) 1 (1 / 100) :=
    one_lt_arg _ _ _ _ hw (by norm_num) (by norm_num) le_rfl le_rfl
  have harg_ub : wheeler_arg w (1 / 100) 1 (1 / 100) ≤
      1 + B * (4 * B + 315 / 100) := by
    unfold wheeler_arg
    rw [htmp2, show ((1 + 1 / (1 : ℝ)) / 2) = 1 by norm_num, mul_one]
    set a := wheeler_tmp1 w (1 / 100) 1 (1 / 100) with ha
    have hsq_ub : Real.sqrt ((2 * a) ^ 2 + π ^ 2) ≤ 2 * a + π := by
      have h1 : Real.sqrt ((2 * a) ^ 2 + π ^ 2) ≤
          Real.sqrt ((2 * a + π) ^ 2) := by
        apply Real.sqrt_le_sqrt
        nlinarith
      rwa [Real.sqrt_sq (by positivity)] at h1
    have hfac : 2 * a + Real.sqrt ((2 * a) ^ 2 + π ^ 2) ≤ 4 * a + π := by
      linarith
    have hfac_nn : 0 ≤ 2 * a + Real.sqrt ((2 * a) ^ 2 + π ^ 2) := by
      have := Real.sqrt_nonneg ((2 * a) ^ 2 + π ^ 2)
      linarith
    have hmul : a * (2 * a + Real.sqrt ((2 * a) ^ 2 + π ^ 2)) ≤
        B * (4 * B + 315 / 100) := by
      have h1 : a * (2 * a + Real.sqrt ((2 * a) ^ 2 + π ^ 2)) ≤
          a * (4 * a + π) :=
        mul_le_mul_of_nonneg_left hfac (le_of_lt htmp1_pos)
      have h2 : a * (4 * a + π) ≤ B * (4 * B + 315 / 100) := by
        apply mul_le_mul htmp1_ub _ (by positivity) hB
        nlinarith
      linarith
    linarith
  have hlog_ub : Real.log (wheeler_arg w (1 / 100) 1 (1 / 100)) ≤
      B * (4 * B + 315 / 100) := by
    have := Real.log_le_sub_one_of_pos
      (lt_trans one_pos harg_gt1)
    linarith
  have hlog_nn : 0 ≤ Real.log (wheeler_arg w (1 / 100) 1 (1 / 100)) :=
    Real.log_nonneg (le_of_lt harg_gt1)
  unfold wheeler_z0
  rw [show (2 * (1 + (1 : ℝ))) = 2 ^ 2 by norm_num,
    Real.sqrt_sq (by norm_num : (0 : ℝ) ≤ 2)]
  have hcoeff_ub : 376.730313668 / (2 * π * 2) ≤ 30 := by
    rw [div_le_iff (by positivity)]
    nlinarith
  have hcoeff_pos : (0 : ℝ) < 376.730313668 / (2 * π * 2) := by positivity
  nlinarith [mul_le_mul hcoeff_ub hlog_ub hlog_nn (by norm_num : (0 : ℝ) ≤ 30)]

/-- At `w = 10`, `t = h = 1/100`, `er = 1`, the impedance is at most `10`
ohms (its true value is `≈0.38`). -/
theorem z_high_le : wheeler_z0 10 (1 / 100) 1 (1 / 100) ≤ 10 := by
  have hweff_lb : (10 : ℝ) ≤ wheeler_weff 10 (1 / 100) 1 (1 / 100) :=
    le_weff _ _ _ _ (by norm_num) (by norm_num) (by norm_num) le_rfl le_rfl
  have hweff_pos : 0 < wheeler_weff 10 (1 / 100) 1 (1 / 100) := by linarith
  have htmp1_ub : wheeler_tmp1 10 (1 / 100) 1 (1 / 100) ≤ 4 / 1000 := by
    unfold wheeler_tmp1
    rw [div_le_iff hweff_pos]
    nlinarith
  have h := z_point_ub 10 (4 / 1000) (by norm_num) htmp1_ub (by norm_num)
  have : (30 : ℝ) * ((4 / 1000) * (4 * (4 / 1000) + 315 / 100)) ≤ 10 := by
    norm_num
  linarith

/-- At `w = 1`, `t = h = 1/100`, `er = 1`, the impedance is at most `4`
ohms (its true value is `≈3.6`). -/
theorem z_mid_le : wheeler_z0 1 (1 / 100) 1 (1 / 100) ≤ 4 := by
  have hweff_lb : (1 : ℝ) ≤ wheeler_weff 1 (1 / 100) 1 (1 / 100) :=
    le_weff _ _ _ _ (by norm_num) (by norm_num) (by norm_num) le_rfl le_rfl
  have hweff_pos : 0 < wheeler_weff 1 (1 / 100) 1 (1 / 100) := by linarith
  have htmp1_ub : wheeler_tmp1 1 (1 / 100) 1 (1 / 100) ≤ 4 / 100 := by
    unfold wheeler_tmp1
    rw [div_le_iff hweff_pos]
    nlinarith
  have h := z_point_ub 1 (4 / 100) (by norm_num) htmp1_ub (by norm_num)
  have : (30 : ℝ) * ((4 / 100) * (4 * (4 / 100) + 315 / 100)) ≤ 4 := by
    norm_num
  linarith

/-- At `w = 1`, `t = h = 1/100`, `er = 1`, the impedance is positive. -/
theorem z_mid_pos : 0 < wheeler_z0 1 (1 / 100) 1 (1 / 100) :=
  wheeler_z0_pos _ _ _ _ (by norm_num) (by norm_num) (by norm_num) le_rfl le_rfl

/-- The low-bracket loop at the witness point exits immediately. -/
theorem bracketLow_point :
    bracketLowAux 10 (1 / 100) 1 (1 / 100) 0 (1 / 10) = some (1 / 10) := by
  unfold bracketLowAux
  rw [if_neg (not_lt.mpr z_low_ge)]

/-- The high-bracket loop at the witness point exits immediately. -/
theorem bracketHigh_point :
    bracketHighAux 10 (1 / 100) 1 (1 / 100) 0 (1 * 10) = some 10 := by
  unfold bracketHighAux
  rw [show (1 * (10 : ℝ)) = 10 by norm_num]
  rw [if_neg (not_lt.mpr z_high_le)]

/-- At the witness point the initial guess is already within the (large)
tolerance. -/
theorem mid_within_tol :
    |wheeler_z0 1 (1 / 100) 1 (1 / 100) - 10| ≤ 1000 := by
  rw [abs_le]
  constructor
  · linarith [z_mid_pos]
  · linarith [z_mid_le]

/-- The interpolation loop at the witness point exits immediately with the
guess width `1`. -/
theorem interpLoop_point :
    interpLoop 10 (1 / 100) 1 (1 / 100) 1000 0
      { wlow := 1 / 10, zlow := wheeler_z0 (1 / 10) (1 / 100) 1 (1 / 100),
        whigh := 10, zhigh := wheeler_z0 10 (1 / 100) 1 (1 / 100),
        width := 1, zm := wheeler_z0 1 (1 / 100) 1 (1 / 100) } = some 1 := by
  unfold interpLoop
  dsimp only
  rw [if_neg (not_lt.mpr mid_within_tol)]

/-- The full solver at the witness point terminates and returns the guess. -/
theorem solver_point_eval :
    wheeler_z0_width 10 (1 / 100) 1 (1 / 100) 1000 1 0 = some 1 := by
  unfold wheeler_z0_width
  rw [bracketLow_point, bracketHigh_point]
  exact interpLoop_point

/-- Witness for C1 at `z0 = 10`, `t = h = 1/100`, `er = 1`, `tol = 1000`,
`guess = 1`: the solver terminates with width `1` and the round trip is
within tolerance. -/
theorem C1_round_trip_witness :
    wheeler_z0_width 10 (1 / 100) 1 (1 / 100) 1000 1 0 = some 1 ∧
      |wheeler_z0 1 (1 / 100) 1 (1 / 100) - 10| ≤ 1000 :=
  ⟨solver_point_eval,
    C1_round_trip 10 (1 / 100) 1 (1 / 100) 1000 1 0 1 solver_point_eval⟩

/-- Claim C4: (a) whenever the two bracketing loops terminate the returned
widths bracket the target (`wheeler_z0 wlow ≥ z0` and
`wheeler_z0 whigh ≤ z0`); (b) every interpolation iteration preserves the
bracket invariant, never decreases `wlow` and never increases `whigh`;
(c) the interpolation loop returns a width only when its impedance error is
at most `tol` — the sole exit condition, independent of any width step
size. -/
theorem C4_solver_invariants (z0 t er h tol : ℝ) (fuel : ℕ) :
    (∀ w0 wl, bracketLowAux z0 t er h fuel w0 = some wl →
        z0 ≤ wheeler_z0 wl t er h) ∧
      (∀ w0 wh, bracketHighAux z0 t er h fuel w0 = some wh →
        wheeler_z0 wh t er h ≤ z0) ∧
      (∀ s, SolveInv z0 t er h s →
        SolveInv z0 t er h (interpStep z0 t er h s) ∧
          s.wlow ≤ (interpStep z0 t er h s).wlow ∧
          (interpStep z0 t er h s).whigh ≤ s.whigh) ∧
      (∀ s w, s.zm = wheeler_z0 s.width t er h →
        interpLoop z0 t er h tol fuel s = some w →
        |wheeler_z0 w t er h - z0| ≤ tol) :=
  ⟨fun w0 wl => bracketLowAux_sound z0 t er h fuel w0 wl,
    fun w0 wh => bracketHighAux_sound z0 t er h fuel w0 wh,
    fun s => interpStep_inv z0 t er h s,
    fun s w => interpLoop_sound z0 t er h tol fuel s w⟩

/-- Witness for C4, exercising all four conjuncts at the concrete point
`z0 = 10`, `t = h = 1/100`, `er = 1`, `tol = 1000`. -/
theorem C4_solver_invariants_witness :
    bracketLowAux 10 (1 / 100) 1 (1 / 100) 0 (1 / 10) = some (1 / 10) ∧
      10 ≤ wheeler_z0 (1 / 10) (1 / 100) 1 (1 / 100) ∧
      bracketHighAux 10 (1 / 100) 1 (1 / 100) 0 (1 * 10) = some 10 ∧
      wheeler_z0 10 (1 / 100) 1 (1 / 100) ≤ 10 ∧
      SolveInv 10 (1 / 100) 1 (1 / 100)
        { wlow := 1 / 10, zlow := wheeler_z0 (1 / 10) (1 / 100) 1 (1 / 100),
          whigh := 10, zhigh := wheeler_z0 10 (1 / 100) 1 (1 / 100),
          width := 1, zm := wheeler_z0 1 (1 / 100) 1 (1 / 100) } ∧
      SolveInv 10 (1 / 100) 1 (1 / 100)
        (interpStep 10 (1 / 100) 1 (1 / 100)
          { wlow := 1 / 10, zlow := wheeler_z0 (1 / 10) (1 / 100) 1 (1 / 100),
            whigh := 10, zhigh := wheeler_z0 10 (1 / 100) 1 (1 / 100),
            width := 1, zm := wheeler_z0 1 (1 / 100) 1 (1 / 100) }) ∧
      |wheeler_z0 1 (1 / 100) 1 (1 / 100) - 10| ≤ 1000 := by
  have hinv : SolveInv 10 (1 / 100) 1 (1 / 100)
      { wlow := 1 / 10, zlow := wheeler_z0 (1 / 10) (1 / 100) 1 (1 / 100),
        whigh := 10, zhigh := wheeler_z0 10 (1 / 100) 1 (1 / 100),
        width := 1, zm := wheeler_z0 1 (1 / 100) 1 (1 / 100) } := by
    unfold SolveInv
    dsimp only
    exact ⟨rfl, rfl, rfl, z_low_ge, z_high_le, by norm_num, by norm_num⟩
  refine ⟨bracketLow_point,
    (C4_solver_invariants 10 (1 / 100) 1 (1 / 100) 1000 0).1 (1 / 10) (1 / 10)
      bracketLow_point,
    bracketHigh_point,
    (C4_solver_invariants 10 (1 / 100) 1 (1 / 100) 1000 0).2.1 (1 * 10) 10
      bracketHigh_point,
    hinv,
    ((C4_solver_invariants 10 (1 / 100) 1 (1 / 100) 1000 0).2.2.1 _ hinv).1,
    (C4_solver_invariants 10 (1 / 100) 1 (1 / 100) 1000 0).2.2.2 _ 1 rfl
      interpLoop_point⟩

/-- Claim C9: if the two bracketing loops terminate and the initial guess
already satisfies the tolerance, the solver returns the guess unchanged:
the interpolation loop body never runs. -/
theorem C9_guess_returned (z0 t er h tol guess : ℝ) (fuel : ℕ) (wl wh : ℝ)
    (hbl : bracketLowAux z0 t er h fuel (guess / 10) = some wl)
    (hbh : bracketHighAux z0 t er h fuel (guess * 10) = some wh)
    (hclose : |wheeler_z0 guess t er h - z0| ≤ tol) :
    wheeler_z0_width z0 t er h tol guess fuel = some guess := by
  unfold wheeler_z0_width
  rw [hbl, hbh]
  show interpLoop z0 t er h tol fuel
    { wlow := wl, zlow := wheeler_z0 wl t er h,
      whigh := wh, zhigh := wheeler_z0 wh t er h,
      width := guess, zm := wheeler_z0 guess t er h } = some guess
  cases fuel with
  | zero =>
    unfold interpLoop
    dsimp only
    rw [if_neg (not_lt.mpr hclose)]
  | succ n =>
    unfold interpLoop
    dsimp only
    rw [if_neg (not_lt.mpr hclose)]

/-- Witness for C9 at `z0 = 10`, `t = h = 1/100`, `er = 1`, `tol = 1000`,
`guess = 1`. -/
theorem C9_guess_returned_witness :
    bracketLowAux 10 (1 / 100) 1 (1 / 100) 0 (1 / 10) = some (1 / 10) ∧
      bracketHighAux 10 (1 / 100) 1 (1 / 100) 0 (1 * 10) = some 10 ∧
      |wheeler_z0 1 (1 / 100) 1 (1 / 100) - 10| ≤ 1000 ∧
      wheeler_z0_width 10 (1 / 100) 1 (1 / 100) 1000 1 0 = some 1 :=
  ⟨bracketLow_point, bracketHigh_point, mid_within_tol,
    C9_guess_returned 10 (1 / 100) 1 (1 / 100) 1000 1 0 (1 / 10) 10
      bracketLow_point bracketHigh_point mid_within_tol⟩

end Pyems
